import Mathlib

/-!
Verification of the real-time call-monitoring broadcast subsystem of the
livekit-demo repository.  The Lean definitions below are shallow embeddings of
the Python classes given in the repository's documentation-embedded source:
`AdminWebSocketManager` (broadcast_to_admins, broadcast_audio_chunk,
remove_admin, register_admin, subscribe_to_conversation),
`StreamingConversationMonitor._monitor_conversation_health`,
`ConversationMonitor.log_event`, and
`AuthManager.generate_admin_token` / `setup_admin_monitoring`.
-/

namespace LMon

/-! ## Messages (the dictionaries passed to broadcast_to_admins) -/

/-- Kinds of messages broadcast to admin dashboards, as the `"type"` field of
the Python dicts (`interim_transcript`, `final_transcript`, `silence_alert`,
`conversation_ended`, `audio_chunk`, `conversation_history`, `initial_state`). -/
inductive MsgType where
  | interimTranscript
  | finalTranscript
  | silenceAlert
  | conversationEnded
  | audioChunk
  | conversationHistory
  | initialState
  | other
deriving DecidableEq, Repr

/-- A broadcast message: its type tag, the optional `conversation_id` entry of
the dict (`message.get("conversation_id")` returns `None` when absent, here
`none`), and a sequence number standing for the remaining payload. -/
structure Msg where
  mtype : MsgType
  convId : Option String
  seq : Nat
deriving DecidableEq, Repr

/-! ## Conversation health monitor

`StreamingConversationMonitor._monitor_conversation_health` loops every
`sweepIntervalSeconds` seconds (`await asyncio.sleep(5)`), computes the silence
duration, and alerts when it exceeds 30 seconds and `silence_start` was `None`;
`silence_start` is reset to `None` whenever the silence duration is back under
the threshold.  We model one iteration as `healthStep` over the observed
silence duration, with the truthiness of `silence_start` as a `Bool`
(`datetime.utcnow()` is always truthy). -/

/-- The silence threshold of the health sweep (`if silence_duration > 30`). -/
def silenceThresholdSeconds : Nat := 30

/-- The sweep interval of the health loop (`await asyncio.sleep(5)`). -/
def sweepIntervalSeconds : Nat := 5

/-- One iteration of the `while self.is_streaming` health loop: given whether
`silence_start` is currently set and the observed silence duration, return the
new `silence_start` flag and the list of silence-alert durations broadcast in
this iteration. -/
def healthStep (alerted : Bool) (d : Nat) : Bool × List Nat :=
  if silenceThresholdSeconds < d then
    if alerted then (true, []) else (true, [d])
  else
    (false, [])

/-- The health loop run over a list of observed silence durations (one per
sweep), collecting all silence-alert durations broadcast, in order. -/
def healthRun (alerted : Bool) : List Nat → List Nat
  | [] => []
  | d :: rest =>
    (healthStep alerted d).2 ++ healthRun (healthStep alerted d).1 rest

/-- Specification-side reading of the silence-alert policy: an alert fires with
the elapsed duration exactly at sweeps where silence exceeds the threshold
while the previous sweep's silence did not (the start of a continuous silence
streak); `prev` is the silence duration observed at the previous sweep (0
before the first sweep). -/
def expectedAlerts (prev : Nat) : List Nat → List Nat
  | [] => []
  | d :: rest =>
    (if silenceThresholdSeconds < d ∧ ¬ silenceThresholdSeconds < prev
      then [d] else []) ++ expectedAlerts d rest

lemma healthRun_eq_expected (ds : List Nat) :
    ∀ prev : Nat,
      healthRun (decide (silenceThresholdSeconds < prev)) ds
        = expectedAlerts prev ds := by
  induction ds with
  | nil => intro prev; rfl
  | cons d rest ih =>
    intro prev
    by_cases hd : silenceThresholdSeconds < d
    · by_cases hp : silenceThresholdSeconds < prev
      · simp [healthRun, healthStep, expectedAlerts, hd, hp, ← ih d]
      · simp [healthRun, healthStep, expectedAlerts, hd, hp, ← ih d]
    · by_cases hp : silenceThresholdSeconds < prev
      · simp [healthRun, healthStep, expectedAlerts, hd, hp, ← ih d]
      · simp [healthRun, healthStep, expectedAlerts, hd, hp, ← ih d]

/-- C3: starting from `silence_start = None`, the health loop emits the alert
stream predicted by the one-alert-per-streak specification: an alert fires,
carrying the elapsed duration, exactly when silence first exceeds the
threshold in a streak, never again during the same streak, and again at the
start of the next streak after activity resumes; the sweep interval is 5
seconds and the threshold 30 seconds. -/
theorem c3_silence_alert_once_per_streak (ds : List Nat) :
    healthRun false ds = expectedAlerts 0 ds
      ∧ sweepIntervalSeconds = 5 ∧ silenceThresholdSeconds = 30 := by
  refine ⟨?_, rfl, rfl⟩
  have h := healthRun_eq_expected ds 0
  simpa using h

/-! ## Hidden-listener credential issuer

`AuthManager.generate_admin_token` (and the identical grant construction in
`setup_admin_monitoring`) builds an AccessToken with
`RoomGrants(room_join=True, room=room_name, can_subscribe=True,
can_publish=False, hidden=True)` and identity `f"admin_{admin_id}"`. -/

/-- The grant fields set by the Python `RoomGrants(...)` call. -/
structure RoomGrants where
  room_join : Bool
  room : String
  can_subscribe : Bool
  can_publish : Bool
  hidden : Bool
deriving DecidableEq, Repr

/-- The access token as built by `AuthManager.generate_admin_token`: an
identity plus its room grants. -/
structure AccessTokenModel where
  identity : String
  grants : RoomGrants
deriving DecidableEq, Repr

/-- Shallow embedding of `AuthManager.generate_admin_token(room_name,
admin_id)`: unconditionally returns a token whose grants permit joining the
named room with subscribe permission, forbid publishing, and hide the
identity; there is no registry lookup and no failure path. -/
def generate_admin_token (room_name : String) (admin_id : String) :
    AccessTokenModel :=
  { identity := "admin_" ++ admin_id
    grants :=
      { room_join := true
        room := room_name
        can_subscribe := true
        can_publish := false
        hidden := true } }

/-- Error taxonomy of the issue operation as the spec describes it. -/
inductive IssueError where
  | conversationNotFound
deriving DecidableEq, Repr

/-- Modelled from the spec (for comparison with the source's
`generate_admin_token`): `issue(conversationId, adminIdentity)` "fails with
`ConversationNotFound` if the conversation is not Active; otherwise returns a
signed, time-bounded capability" with subscribe-only, hidden access to that
room.  `activeConversations` is the set of currently Active conversation ids. -/
def issueSpec (activeConversations : List String) (room : String)
    (admin : String) : Except IssueError AccessTokenModel :=
  if room ∈ activeConversations then
    Except.ok
      { identity := "admin_" ++ admin
        grants :=
          { room_join := true
            room := room
            can_subscribe := true
            can_publish := false
            hidden := true } }
  else
    Except.error IssueError.conversationNotFound

/-- C4 counterexample: for a conversation that is not Active (here `dead-room`,
with only `live-room` active), the spec-side issue operation fails with
`ConversationNotFound`, but the source's `generate_admin_token` — which takes
no registry and has no failure path — still returns a grant permitting joining
exactly that room. -/
theorem c4_no_active_check_cex :
    issueSpec ["live-room"] "dead-room" "a1"
        = Except.error IssueError.conversationNotFound
      ∧ (generate_admin_token "dead-room" "a1").grants.room_join = true
      ∧ (generate_admin_token "dead-room" "a1").grants.room = "dead-room" := by
  refine ⟨?_, rfl, rfl⟩
  simp [issueSpec]

/-- C4 amended: the issue operation performs no Active-conversation check and
never fails; for every conversation and admin identity it returns a grant that
permits joining exactly that room with subscribe permission, forbids
publishing, and marks the identity hidden from the roster. -/
theorem c4_token_grants (room_name admin_id : String) :
    (generate_admin_token room_name admin_id).grants.room = room_name
      ∧ (generate_admin_token room_name admin_id).grants.room_join = true
      ∧ (generate_admin_token room_name admin_id).grants.can_subscribe = true
      ∧ (generate_admin_token room_name admin_id).grants.can_publish = false
      ∧ (generate_admin_token room_name admin_id).grants.hidden = true
      ∧ (generate_admin_token room_name admin_id).identity
          = "admin_" ++ admin_id :=
  ⟨rfl, rfl, rfl, rfl, rfl, rfl⟩

/-! ## Conversation registry (ConversationMonitor)

`ConversationMonitor.__init__` sets `self.events = []` and
`self.metadata = {"start_time": ..., "participants": [], "status": "active"}`;
`log_event` appends the event to `self.events`, stores it, and broadcasts it,
with no check of the conversation's status. -/

/-- A conversation event as stored by `ConversationMonitor.log_event`
(speaker, content, event_type and the is_final flag of the Python
ConversationEvent). -/
structure ConversationEventRec where
  speaker : String
  content : String
  event_type : String
  is_final : Bool
deriving DecidableEq, Repr

/-- The registry state per conversation: `ConversationMonitor`'s
`conversation_id`, `events` list, and the `status` and `participants` entries
of its `metadata` dict. -/
structure ConversationMonitorState where
  conversation_id : String
  events : List ConversationEventRec
  status : String
  participants : List String
deriving DecidableEq, Repr

/-- Shallow embedding of `ConversationMonitor.log_event`: the event is
appended to `self.events` unconditionally (the database store and the
broadcast are external side effects); no field other than `events` changes,
and in particular the conversation's status is never consulted. -/
def log_event (m : ConversationMonitorState) (e : ConversationEventRec) :
    ConversationMonitorState :=
  { m with events := m.events ++ [e] }

/-- Modelled from the spec: the body of `ConversationMonitor.log_participant_joined`
is not among the repository's source snippets (only its caller
`on_participant_connected` is); the spec says membership counters are
"updated on membership-change events" and `metadata["participants"]` is a
list, so a join appends the identity. -/
def log_participant_joined (m : ConversationMonitorState) (id : String) :
    ConversationMonitorState :=
  { m with participants := m.participants ++ [id] }

/-- Modelled from the spec: the body of `ConversationMonitor.log_participant_left`
is not among the repository's source snippets (only its caller
`on_participant_disconnected` is); a leave removes the identity from
`metadata["participants"]`. -/
def log_participant_left (m : ConversationMonitorState) (id : String) :
    ConversationMonitorState :=
  { m with participants := m.participants.erase id }

/-- A membership-change event, as dispatched by `on_participant_connected` /
`on_participant_disconnected`. -/
inductive MembershipEvent where
  | joined (id : String)
  | left (id : String)
deriving DecidableEq, Repr

/-- Apply one membership event to the monitor. -/
def applyMembership (m : ConversationMonitorState) :
    MembershipEvent → ConversationMonitorState
  | .joined id => log_participant_joined m id
  | .left id => log_participant_left m id

/-- Apply a sequence of membership events to the monitor. -/
def applyMembershipSeq (m : ConversationMonitorState)
    (l : List MembershipEvent) : ConversationMonitorState :=
  l.foldl applyMembership m

/-- Number of join events in a sequence. -/
def countJoins : List MembershipEvent → Nat
  | [] => 0
  | .joined _ :: r => countJoins r + 1
  | .left _ :: r => countJoins r

/-- Number of leave events in a sequence. -/
def countLeaves : List MembershipEvent → Nat
  | [] => 0
  | .joined _ :: r => countLeaves r
  | .left _ :: r => countLeaves r + 1

/-- A membership sequence is well formed for a starting participant list when
every leave names an identity currently present (the external platform emits
a leave only for a previously joined participant). -/
def wellFormedSeq : List String → List MembershipEvent → Bool
  | _, [] => true
  | p, .joined id :: r => wellFormedSeq (p ++ [id]) r
  | p, .left id :: r => decide (id ∈ p) && wellFormedSeq (p.erase id) r

lemma participants_applyMembershipSeq (l : List MembershipEvent) :
    ∀ m : ConversationMonitorState,
      wellFormedSeq m.participants l = true →
        (applyMembershipSeq m l).participants.length + countLeaves l
          = m.participants.length + countJoins l := by
  induction l with
  | nil => intro m _; simp [applyMembershipSeq, countJoins, countLeaves]
  | cons e r ih =>
    intro m hwf
    cases e with
    | joined id =>
      have hwf' : wellFormedSeq ((log_participant_joined m id).participants) r
          = true := by
        simpa [wellFormedSeq, log_participant_joined] using hwf
      have ih' := ih (log_participant_joined m id) hwf'
      have hlen : (log_participant_joined m id).participants.length
          = m.participants.length + 1 := by
        simp [log_participant_joined]
      rw [hlen] at ih'
      simp only [applyMembershipSeq, List.foldl_cons, applyMembership] at ih' ⊢
      simp only [countJoins, countLeaves]
      omega
    | left id =>
      have hmem : id ∈ m.participants := by
        have h := hwf
        simp [wellFormedSeq] at h
        exact h.1
      have hwf' : wellFormedSeq ((log_participant_left m id).participants) r
          = true := by
        have h := hwf
        simp [wellFormedSeq, log_participant_left] at h ⊢
        exact h.2
      have ih' := ih (log_participant_left m id) hwf'
      have hlen : (log_participant_left m id).participants.length
          = m.participants.length - 1 := by
        simpa [log_participant_left] using List.length_erase_of_mem hmem
      have hpos : 0 < m.participants.length := List.length_pos.mpr
        (by intro hnil; rw [hnil] at hmem; exact List.not_mem_nil id hmem)
      rw [hlen] at ih'
      simp only [applyMembershipSeq, List.foldl_cons, applyMembership] at ih' ⊢
      simp only [countJoins, countLeaves]
      omega

/-- C9: for every well-formed sequence of join/leave events applied to the
registry, the participant count equals joins minus leaves (stated additively
over `Nat`, so it is also never negative: leaves never exceed joins plus the
initial population), and `log_event` — the only other mutation path in the
source — never changes the participant list. -/
theorem c9_participant_count_net (m : ConversationMonitorState)
    (l : List MembershipEvent)
    (hwf : wellFormedSeq m.participants l = true) :
    (applyMembershipSeq m l).participants.length + countLeaves l
        = m.participants.length + countJoins l
      ∧ countLeaves l ≤ m.participants.length + countJoins l
      ∧ ∀ (m' : ConversationMonitorState) (e : ConversationEventRec),
          (log_event m' e).participants = m'.participants := by
  have h := participants_applyMembershipSeq l m hwf
  exact ⟨h, by omega, fun m' e => rfl⟩

/-- C9 witness: a concrete well-formed sequence (two joins, then one leave)
yields participant count 1 = 2 − 1. -/
theorem c9_participant_count_net_witness :
    wellFormedSeq
        (ConversationMonitorState.mk "room-42" [] "active" []).participants
        [MembershipEvent.joined "customer", MembershipEvent.joined "agent",
          MembershipEvent.left "customer"] = true
      ∧ ((applyMembershipSeq
            (ConversationMonitorState.mk "room-42" [] "active" [])
            [MembershipEvent.joined "customer", MembershipEvent.joined "agent",
              MembershipEvent.left "customer"]).participants.length
            + countLeaves
              [MembershipEvent.joined "customer", MembershipEvent.joined "agent",
                MembershipEvent.left "customer"]
          = (ConversationMonitorState.mk "room-42" [] "active" []).participants.length
            + countJoins
              [MembershipEvent.joined "customer", MembershipEvent.joined "agent",
                MembershipEvent.left "customer"]
          ∧ countLeaves
              [MembershipEvent.joined "customer", MembershipEvent.joined "agent",
                MembershipEvent.left "customer"]
            ≤ (ConversationMonitorState.mk "room-42" [] "active" []).participants.length
              + countJoins
                [MembershipEvent.joined "customer", MembershipEvent.joined "agent",
                  MembershipEvent.left "customer"]
          ∧ ∀ (m' : ConversationMonitorState) (e : ConversationEventRec),
              (log_event m' e).participants = m'.participants) :=
  ⟨by decide,
    c9_participant_count_net
      (ConversationMonitorState.mk "room-42" [] "active" [])
      [MembershipEvent.joined "customer", MembershipEvent.joined "agent",
        MembershipEvent.left "customer"] (by decide)⟩

/-- A monitor whose conversation has already Ended. -/
def endedMonitor : ConversationMonitorState :=
  { conversation_id := "room-7", events := [], status := "ended",
    participants := [] }

/-- A stale ingestion event referencing the ended conversation. -/
def staleEvent : ConversationEventRec :=
  { speaker := "customer", content := "hello", event_type := "speech",
    is_final := true }

/-- C7 counterexample: applying an event to an already-Ended conversation does
not leave the registry state unchanged — `log_event` performs no status check
and appends the event to the log. -/
theorem c7_stale_event_applied_cex :
    endedMonitor.status = "ended"
      ∧ log_event endedMonitor staleEvent ≠ endedMonitor
      ∧ (log_event endedMonitor staleEvent).events = [staleEvent] := by
  refine ⟨rfl, ?_, rfl⟩
  intro h
  have := congrArg ConversationMonitorState.events h
  simp [log_event, endedMonitor] at this

/-- C7 amended: `log_event` never consults the conversation's status: for
every monitor state — including one whose conversation already Ended — the
event is appended to the event log and no error is returned to any caller
(the function is total); status and participants are untouched. -/
theorem c7_log_event_unconditional (m : ConversationMonitorState)
    (e : ConversationEventRec) :
    (log_event m e).events = m.events ++ [e]
      ∧ (log_event m e).status = m.status
      ∧ (log_event m e).participants = m.participants
      ∧ (log_event m e).conversation_id = m.conversation_id :=
  ⟨rfl, rfl, rfl, rfl⟩

/-! ## Admin connection manager (AdminWebSocketManager)

`AdminWebSocketManager` holds `admin_connections` (a dict `admin_id ->
websocket`; we keep its ordered key list) and `conversation_subscriptions`
(a `defaultdict(set)` mapping `conversation_id` to a set of admin ids; we keep
an association list of conversation id and admin-id list).  Deliveries are
observed through `sent`, the ordered log of `(admin_id, message)` pairs
written by successful `send_json` calls; an admin's channel is the
subsequence of messages addressed to it. -/

/-- State of the `AdminWebSocketManager`, together with the outbound send log
used to observe deliveries. -/
structure Mgr where
  connections : List String
  subs : List (String × List String)
  sent : List (String × Msg)
deriving DecidableEq, Repr

/-- Dictionary lookup in the subscription table
(`self.conversation_subscriptions.get(conversation_id, set())`). -/
def lookupSubs : List (String × List String) → String → List String
  | [], _ => []
  | p :: rest, c => if p.1 = c then p.2 else lookupSubs rest c

/-- The subscriber set of a conversation. -/
def subsOf (s : Mgr) (c : String) : List String :=
  lookupSubs s.subs c

/-- The channel of one admin: the messages sent to it, in send order. -/
def channelOf (s : Mgr) (a : String) : List Msg :=
  (s.sent.filter (fun p => decide (p.1 = a))).map (fun p => p.2)

/-- The subscription-table update performed by `remove_admin`'s loop: every
conversation's set discards the admin, and entries whose set became empty are
deleted from the table. -/
def removeSubs (a : String) : List (String × List String) →
    List (String × List String)
  | [] => []
  | p :: rest =>
    if p.2.filter (fun x => decide (x ≠ a)) = [] then removeSubs a rest
    else (p.1, p.2.filter (fun x => decide (x ≠ a))) :: removeSubs a rest

/-- Shallow embedding of `AdminWebSocketManager.remove_admin`: delete the
admin's connection entry if present, discard the admin from every
conversation's subscription set, and delete subscription sets that are now
empty.  The send log is untouched. -/
def removeAdmin (s : Mgr) (a : String) : Mgr :=
  { s with
    connections := s.connections.filter (fun x => decide (x ≠ a))
    subs := removeSubs a s.subs }

/-- The target-admin selection of `broadcast_to_admins`:
`conversation_id = message.get("conversation_id")`; `if conversation_id:` is
Python truthiness, so a missing id (`none`) and an empty-string id both fall
through to the global branch targeting every connected admin. -/
def targetsOf (s : Mgr) (m : Msg) : List String :=
  match m.convId with
  | some c => if c = "" then s.connections else subsOf s c
  | none => s.connections

/-- The target admins that pass the `if admin_id in self.admin_connections`
guard of the send loop. -/
def presentList (s : Mgr) (m : Msg) : List String :=
  (targetsOf s m).filter (fun x => decide (x ∈ s.connections))

/-- The admins whose `send_json` succeeds during this broadcast; `failing` is
the set of admins whose websocket raises `ConnectionClosed` /
`WebSocketDisconnect` on this send. -/
def deliveredList (s : Mgr) (failing : List String) (m : Msg) : List String :=
  (presentList s m).filter (fun x => decide (x ∉ failing))

/-- The `disconnected_admins` list accumulated by the send loop: target admins
whose send raised. -/
def disconnectedList (s : Mgr) (failing : List String) (m : Msg) :
    List String :=
  (presentList s m).filter (fun x => decide (x ∈ failing))

/-- Shallow embedding of `AdminWebSocketManager.broadcast_to_admins`: select
the target admins from the message's conversation id, send the message to
each connected target whose transport does not fail (each exception is caught
inside the loop), then call `remove_admin` on each admin whose send failed. -/
def broadcastToAdmins (s : Mgr) (failing : List String) (m : Msg) : Mgr :=
  (disconnectedList s failing m).foldl removeAdmin
    { s with sent := s.sent ++ (deliveredList s failing m).map (fun x => (x, m)) }

/-- A sequence of broadcasts, each with its own set of failing transports. -/
def publishSeq (s : Mgr) (l : List (Msg × List String)) : Mgr :=
  l.foldl (fun st p => broadcastToAdmins st p.2 p.1) s

/-- Set insertion (`set.add` on the Python side, keeping first-insertion
order). -/
def addToSet (l : List String) (a : String) : List String :=
  if a ∈ l then l else l ++ [a]

/-- Table update of `subscribe_to_conversation`:
`self.conversation_subscriptions[conversation_id].add(admin_id)`, where the
`defaultdict` creates a fresh entry for an unknown conversation. -/
def addSub : List (String × List String) → String → String →
    List (String × List String)
  | [], c, a => [(c, [a])]
  | p :: rest, c, a =>
    if p.1 = c then (p.1, addToSet p.2 a) :: rest else p :: addSub rest c a

/-- The `conversation_history` message sent back by
`subscribe_to_conversation`. -/
def historyMsg (c : String) : Msg :=
  { mtype := MsgType.conversationHistory, convId := some c, seq := 0 }

/-- Shallow embedding of `AdminWebSocketManager.subscribe_to_conversation`:
add the admin to the conversation's subscription set, then send the
conversation history to the admin if it is connected. -/
def subscribeToConversation (s : Mgr) (a c : String) : Mgr :=
  { s with
    subs := addSub s.subs c a
    sent := if a ∈ s.connections then s.sent ++ [(a, historyMsg c)]
            else s.sent }

/-- The `initial_state` message sent by `register_admin`. -/
def initialStateMsg : Msg :=
  { mtype := MsgType.initialState, convId := none, seq := 0 }

/-- Shallow embedding of `AdminWebSocketManager.register_admin`: store the
admin's connection and send it the current active conversations. -/
def registerAdmin (s : Mgr) (a : String) : Mgr :=
  { s with
    connections := addToSet s.connections a
    sent := s.sent ++ [(a, initialStateMsg)] }

/-- Modelled from the spec: the body of
`EnhancedAgent.broadcast_shutdown_event` (called by `graceful_shutdown`) is
not among the repository's source snippets — only its caller is; per the spec
it notifies the admin dashboard that the conversation ended, i.e. it
broadcasts one terminal ConversationEnded message for the conversation. -/
def conversationEndedMsg (c : String) : Msg :=
  { mtype := MsgType.conversationEnded, convId := some c, seq := 0 }

/-- Modelled from the spec: `graceful_shutdown`'s admin notification — a
single `broadcast_to_admins` call carrying the terminal ConversationEnded
message for the ending conversation. -/
def broadcastShutdownEvent (s : Mgr) (failing : List String) (c : String) :
    Mgr :=
  broadcastToAdmins s failing (conversationEndedMsg c)

/-! ### Basic lemmas about the manager model -/

lemma sent_foldl_removeAdmin (D : List String) :
    ∀ s : Mgr, (D.foldl removeAdmin s).sent = s.sent := by
  induction D with
  | nil => intro s; rfl
  | cons x D ih => intro s; rw [List.foldl_cons, ih]; rfl

lemma sent_broadcast (s : Mgr) (F : List String) (m : Msg) :
    (broadcastToAdmins s F m).sent
      = s.sent ++ (deliveredList s F m).map (fun x => (x, m)) := by
  unfold broadcastToAdmins
  exact sent_foldl_removeAdmin _ _

lemma pairs_filter_nodup (m : Msg) (a : String) :
    ∀ L : List String, L.Nodup →
      ((L.map (fun x => (x, m))).filter (fun p => decide (p.1 = a))).map
          (fun p => p.2)
        = if a ∈ L then [m] else [] := by
  intro L
  induction L with
  | nil => intro _; simp
  | cons x rest ih =>
    intro hnd
    rcases List.nodup_cons.mp hnd with ⟨hx, hrest⟩
    by_cases hxa : x = a
    · subst hxa
      simp [List.filter_cons, ih hrest, hx]
    · have hax : ¬ a = x := fun h => hxa h.symm
      simp [List.filter_cons, hxa, ih hrest, hax]

lemma mem_deliveredList (s : Mgr) (F : List String) (m : Msg) (a : String) :
    a ∈ deliveredList s F m
      ↔ a ∈ targetsOf s m ∧ a ∈ s.connections ∧ a ∉ F := by
  constructor
  · intro h
    simp [deliveredList, presentList, List.mem_filter] at h
    tauto
  · intro h
    simp [deliveredList, presentList, List.mem_filter]
    tauto

lemma mem_disconnectedList (s : Mgr) (F : List String) (m : Msg) (a : String) :
    a ∈ disconnectedList s F m
      ↔ a ∈ targetsOf s m ∧ a ∈ s.connections ∧ a ∈ F := by
  constructor
  · intro h
    simp [disconnectedList, presentList, List.mem_filter] at h
    tauto
  · intro h
    simp [disconnectedList, presentList, List.mem_filter]
    tauto

lemma channelOf_broadcast (s : Mgr) (F : List String) (m : Msg) (a : String)
    (h : (targetsOf s m).Nodup) :
    channelOf (broadcastToAdmins s F m) a
      = channelOf s a ++ (if a ∈ deliveredList s F m then [m] else []) := by
  have hnd : (deliveredList s F m).Nodup := (h.filter _).filter _
  unfold channelOf
  rw [sent_broadcast, List.filter_append, List.map_append]
  congr 1
  exact pairs_filter_nodup m a _ hnd

lemma channel_extend (s : Mgr) (F : List String) (m : Msg) (a : String) :
    ∃ t, channelOf (broadcastToAdmins s F m) a = channelOf s a ++ t := by
  refine ⟨(((deliveredList s F m).map (fun x => (x, m))).filter
      (fun p => decide (p.1 = a))).map (fun p => p.2), ?_⟩
  unfold channelOf
  rw [sent_broadcast, List.filter_append, List.map_append]

lemma channel_extend_seq (l : List (Msg × List String)) :
    ∀ (s : Mgr) (a : String),
      ∃ t, channelOf (publishSeq s l) a = channelOf s a ++ t := by
  induction l with
  | nil => intro s a; exact ⟨[], by simp [publishSeq]⟩
  | cons p l ih =>
    intro s a
    obtain ⟨t1, h1⟩ := channel_extend s p.2 p.1 a
    obtain ⟨t2, h2⟩ := ih (broadcastToAdmins s p.2 p.1) a
    refine ⟨t1 ++ t2, ?_⟩
    have hps : publishSeq s (p :: l)
        = publishSeq (broadcastToAdmins s p.2 p.1) l := rfl
    rw [hps, h2, h1, List.append_assoc]

lemma filter_mem_nil (L : List String) :
    L.filter (fun x => decide (x ∈ ([] : List String))) = [] := by
  induction L with
  | nil => rfl
  | cons x L ih => simp [List.filter_cons, ih]

lemma disconnectedList_noFail (s : Mgr) (m : Msg) :
    disconnectedList s [] m = [] := by
  unfold disconnectedList
  exact filter_mem_nil _

lemma broadcast_noFail_subs (s : Mgr) (m : Msg) :
    (broadcastToAdmins s [] m).subs = s.subs := by
  unfold broadcastToAdmins
  rw [disconnectedList_noFail]
  rfl

lemma broadcast_noFail_conn (s : Mgr) (m : Msg) :
    (broadcastToAdmins s [] m).connections = s.connections := by
  unfold broadcastToAdmins
  rw [disconnectedList_noFail]
  rfl

lemma broadcast_noFail_subsOf (s : Mgr) (m : Msg) (c : String) :
    subsOf (broadcastToAdmins s [] m) c = subsOf s c := by
  unfold subsOf
  rw [broadcast_noFail_subs]

/-- The key per-subscriber delivery fact: a subscribed, connected admin whose
transport does not fail receives exactly one copy of the broadcast message,
appended at the end of its channel. -/
lemma delivered_channel (s : Mgr) (F : List String) (m : Msg) (c a : String)
    (hm : m.convId = some c) (hsub : a ∈ subsOf s c)
    (hconn : a ∈ s.connections) (hF : a ∉ F)
    (hn1 : (subsOf s c).Nodup) (hn2 : s.connections.Nodup) :
    channelOf (broadcastToAdmins s F m) a = channelOf s a ++ [m] := by
  have htgt : targetsOf s m = if c = "" then s.connections else subsOf s c := by
    simp [targetsOf, hm]
  have hndt : (targetsOf s m).Nodup := by
    rw [htgt]; by_cases hc : c = "" <;> simp [hc, hn1, hn2]
  have hat : a ∈ targetsOf s m := by
    rw [htgt]; by_cases hc : c = "" <;> simp [hc, hsub, hconn]
  have hdel : a ∈ deliveredList s F m :=
    (mem_deliveredList s F m a).mpr ⟨hat, hconn, hF⟩
  rw [channelOf_broadcast s F m a hndt, if_pos hdel]

/-! ### Removal lemmas -/

/-- An admin is absent from every subscription set of a table. -/
def subsFree (L : List (String × List String)) (b : String) : Prop :=
  ∀ p ∈ L, b ∉ p.2

lemma notMem_filter_ne (l : List String) (b : String) :
    b ∉ l.filter (fun x => decide (x ≠ b)) := by
  intro h
  simpa using (List.mem_filter.mp h).2

lemma subsFree_removeSubs_self (b : String) :
    ∀ L, subsFree (removeSubs b L) b := by
  intro L
  induction L with
  | nil => intro p hp; simp [removeSubs] at hp
  | cons q L ih =>
    intro p hp
    unfold removeSubs at hp
    by_cases hq : q.2.filter (fun x => decide (x ≠ b)) = []
    · rw [if_pos hq] at hp; exact ih p hp
    · rw [if_neg hq] at hp
      rcases List.mem_cons.mp hp with h | h
      · subst h; exact notMem_filter_ne q.2 b
      · exact ih p h

lemma subsFree_mono (b x : String) :
    ∀ L, subsFree L b → subsFree (removeSubs x L) b := by
  intro L
  induction L with
  | nil => intro _ p hp; simp [removeSubs] at hp
  | cons q L ih =>
    intro h p hp
    unfold removeSubs at hp
    by_cases hq : q.2.filter (fun y => decide (y ≠ x)) = []
    · rw [if_pos hq] at hp
      exact ih (fun r hr => h r (List.mem_cons_of_mem q hr)) p hp
    · rw [if_neg hq] at hp
      rcases List.mem_cons.mp hp with h1 | h1
      · subst h1
        intro hb
        exact h q (List.mem_cons_self q L) (List.mem_filter.mp hb).1
      · exact ih (fun r hr => h r (List.mem_cons_of_mem q hr)) p h1

lemma subsFree_lookup (b c : String) :
    ∀ L, subsFree L b → b ∉ lookupSubs L c := by
  intro L
  induction L with
  | nil => intro _; simp [lookupSubs]
  | cons q L ih =>
    intro h
    unfold lookupSubs
    by_cases hq : q.1 = c
    · rw [if_pos hq]; exact h q (List.mem_cons_self q L)
    · rw [if_neg hq]; exact ih (fun r hr => h r (List.mem_cons_of_mem q hr))

lemma conn_removeAdmin_self (s : Mgr) (b : String) :
    b ∉ (removeAdmin s b).connections :=
  notMem_filter_ne s.connections b

lemma conn_removeAdmin_mono (s : Mgr) (x b : String) :
    b ∉ s.connections → b ∉ (removeAdmin s x).connections := by
  intro h hb
  exact h (List.mem_filter.mp hb).1

lemma subs_conn_free_foldl (b : String) (D : List String) :
    ∀ s : Mgr, subsFree s.subs b ∧ b ∉ s.connections →
      subsFree ((D.foldl removeAdmin s).subs) b
        ∧ b ∉ (D.foldl removeAdmin s).connections := by
  induction D with
  | nil => intro s h; exact h
  | cons x D ih =>
    intro s h
    rw [List.foldl_cons]
    exact ih (removeAdmin s x)
      ⟨subsFree_mono b x s.subs h.1, conn_removeAdmin_mono s x b h.2⟩

lemma removed_after_foldl (b : String) (D : List String) :
    ∀ s : Mgr, b ∈ D →
      subsFree ((D.foldl removeAdmin s).subs) b
        ∧ b ∉ (D.foldl removeAdmin s).connections := by
  induction D with
  | nil => intro s h; exact absurd h (List.not_mem_nil b)
  | cons x D ih =>
    intro s hmem
    rw [List.foldl_cons]
    by_cases hx : b = x
    · subst hx
      exact subs_conn_free_foldl b D (removeAdmin s b)
        ⟨subsFree_removeSubs_self b s.subs, conn_removeAdmin_self s b⟩
    · rcases List.mem_cons.mp hmem with h1 | h1
      · exact absurd h1 hx
      · exact ih (removeAdmin s x) h1

/-! ### Idempotence of removal -/

lemma filter_ne_idem (l : List String) (a : String) :
    (l.filter (fun x => decide (x ≠ a))).filter (fun x => decide (x ≠ a))
      = l.filter (fun x => decide (x ≠ a)) := by
  apply List.filter_eq_self.mpr
  intro x hx
  exact (List.mem_filter.mp hx).2

lemma removeSubs_cons (a : String) (q : String × List String)
    (L : List (String × List String)) :
    removeSubs a (q :: L)
      = if q.2.filter (fun x => decide (x ≠ a)) = [] then removeSubs a L
        else (q.1, q.2.filter (fun x => decide (x ≠ a))) :: removeSubs a L :=
  rfl

lemma removeSubs_idem (a : String) :
    ∀ L, removeSubs a (removeSubs a L) = removeSubs a L := by
  intro L
  induction L with
  | nil => rfl
  | cons q L ih =>
    rw [removeSubs_cons]
    by_cases hq : q.2.filter (fun x => decide (x ≠ a)) = []
    · rw [if_pos hq]; exact ih
    · rw [if_neg hq, removeSubs_cons]
      dsimp only
      rw [filter_ne_idem, if_neg hq, ih]

/-- C8: `remove_admin` is idempotent: removing the same admin twice in a row
yields exactly the state produced by removing it once — the second call is a
no-op on the connection table, on every conversation's subscription set, and
on the send log, with no error (the function is total). -/
theorem c8_remove_admin_idempotent (s : Mgr) (a : String) :
    removeAdmin (removeAdmin s a) a = removeAdmin s a := by
  cases s with
  | mk co su se =>
    simp [removeAdmin, filter_ne_idem, removeSubs_idem]

/-! ### Concrete states and messages used in witnesses and counterexamples -/

/-- A manager with one connected admin subscribed to room-42. -/
def oneAdminMgr : Mgr :=
  { connections := ["a1"], subs := [("room-42", ["a1"])], sent := [] }

/-- A manager with two connected admins, both subscribed to room-42. -/
def twoAdminMgr : Mgr :=
  { connections := ["a1", "b1"], subs := [("room-42", ["a1", "b1"])],
    sent := [] }

/-- A manager with two connected admins where only a2 holds a subscription. -/
def mixedMgr : Mgr :=
  { connections := ["a1", "a2"], subs := [("room-1", ["a2"])], sent := [] }

/-- A final transcript broadcast on room-42. -/
def finalMsgA : Msg :=
  { mtype := MsgType.finalTranscript, convId := some "room-42", seq := 1 }

/-- A second final transcript broadcast on room-42 after `finalMsgA`. -/
def finalMsgB : Msg :=
  { mtype := MsgType.finalTranscript, convId := some "room-42", seq := 2 }

/-- An interim transcript broadcast on room-42. -/
def interimMsg : Msg :=
  { mtype := MsgType.interimTranscript, convId := some "room-42", seq := 0 }

/-- A message whose `conversation_id` entry is present but empty. -/
def emptyIdMsg : Msg :=
  { mtype := MsgType.other, convId := some "", seq := 9 }

/-! ### C1: per-event delivery to subscribers -/

/-- C1: if admin `a` is subscribed to conversation `c` while message `m` is
published on `c`, and `a` is connected with a non-failing transport, then the
single `broadcast_to_admins` call appends exactly one copy of `m` to `a`'s
channel (no duplication), and every event published afterwards lands strictly
after `m` on that channel. -/
theorem c1_subscriber_delivery (s : Mgr) (F : List String) (m : Msg)
    (c a : String) (l : List (Msg × List String))
    (hm : m.convId = some c)
    (hsub : a ∈ subsOf s c) (hconn : a ∈ s.connections) (hF : a ∉ F)
    (hn1 : (subsOf s c).Nodup) (hn2 : s.connections.Nodup) :
    channelOf (broadcastToAdmins s F m) a = channelOf s a ++ [m]
      ∧ ∃ laterMsgs,
          channelOf (publishSeq (broadcastToAdmins s F m) l) a
            = channelOf s a ++ [m] ++ laterMsgs := by
  have h1 := delivered_channel s F m c a hm hsub hconn hF hn1 hn2
  obtain ⟨t, ht⟩ := channel_extend_seq l (broadcastToAdmins s F m) a
  exact ⟨h1, ⟨t, by rw [ht, h1]⟩⟩

/-- C1 witness: with one connected admin subscribed to room-42, publishing
`finalMsgA` and then `finalMsgB` places exactly one copy of `finalMsgA` on the
channel, before everything published later. -/
theorem c1_subscriber_delivery_witness :
    ("a1" ∈ subsOf oneAdminMgr "room-42" ∧ "a1" ∈ oneAdminMgr.connections
        ∧ "a1" ∉ ([] : List String)
        ∧ (subsOf oneAdminMgr "room-42").Nodup
        ∧ oneAdminMgr.connections.Nodup)
      ∧ (channelOf (broadcastToAdmins oneAdminMgr [] finalMsgA) "a1"
            = channelOf oneAdminMgr "a1" ++ [finalMsgA]
          ∧ ∃ laterMsgs,
              channelOf
                  (publishSeq (broadcastToAdmins oneAdminMgr [] finalMsgA)
                    [(finalMsgB, [])]) "a1"
                = channelOf oneAdminMgr "a1" ++ [finalMsgA] ++ laterMsgs) :=
  ⟨⟨by decide, by decide, by decide, by decide, by decide⟩,
    c1_subscriber_delivery oneAdminMgr [] finalMsgA "room-42" "a1"
      [(finalMsgB, [])] rfl (by decide) (by decide) (by decide) (by decide)
      (by decide)⟩

/-! ### C5: containment of one admin's transport failure -/

/-- C5: when admin `b`'s transport fails during a broadcast on conversation
`c`, the failure is contained: every other subscribed, connected admin `a`
still receives the message exactly once, the broadcast itself completes (the
publisher sees no error: the function is total and each exception is caught
inside the send loop), and `b` is removed from the connection table and from
every conversation's subscriber set. -/
theorem c5_failure_containment (s : Mgr) (F : List String) (m : Msg)
    (c a b : String)
    (hm : m.convId = some c) (hc : c ≠ "")
    (hn1 : (subsOf s c).Nodup) (hn2 : s.connections.Nodup)
    (ha1 : a ∈ subsOf s c) (ha2 : a ∈ s.connections) (ha3 : a ∉ F)
    (hb1 : b ∈ subsOf s c) (hb2 : b ∈ s.connections) (hb3 : b ∈ F) :
    channelOf (broadcastToAdmins s F m) a = channelOf s a ++ [m]
      ∧ (∀ c', b ∉ subsOf (broadcastToAdmins s F m) c')
      ∧ b ∉ (broadcastToAdmins s F m).connections := by
  have h1 := delivered_channel s F m c a hm ha1 ha2 ha3 hn1 hn2
  have htgt : targetsOf s m = subsOf s c := by simp [targetsOf, hm, hc]
  have hbd : b ∈ disconnectedList s F m :=
    (mem_disconnectedList s F m b).mpr ⟨by rw [htgt]; exact hb1, hb2, hb3⟩
  have hrem := removed_after_foldl b (disconnectedList s F m)
    { s with sent := s.sent ++ (deliveredList s F m).map (fun x => (x, m)) }
    hbd
  refine ⟨h1, ?_, ?_⟩
  · intro c'
    exact subsFree_lookup b c' _ hrem.1
  · exact hrem.2

/-- C5 witness: with admins a1 and b1 both subscribed to room-42 and b1's
transport failing, a1 still receives the message, and b1 is removed from the
connection table and from every subscriber set. -/
theorem c5_failure_containment_witness :
    ("a1" ∈ subsOf twoAdminMgr "room-42" ∧ "b1" ∈ subsOf twoAdminMgr "room-42"
        ∧ "b1" ∈ ["b1"])
      ∧ (channelOf (broadcastToAdmins twoAdminMgr ["b1"] finalMsgA) "a1"
            = channelOf twoAdminMgr "a1" ++ [finalMsgA]
          ∧ (∀ c', "b1" ∉ subsOf (broadcastToAdmins twoAdminMgr ["b1"] finalMsgA) c')
          ∧ "b1" ∉ (broadcastToAdmins twoAdminMgr ["b1"] finalMsgA).connections) :=
  ⟨⟨by decide, by decide, by decide⟩,
    c5_failure_containment twoAdminMgr ["b1"] finalMsgA "room-42" "a1" "b1"
      rfl (by decide) (by decide) (by decide) (by decide) (by decide)
      (by decide) (by decide) (by decide) (by decide)⟩

/-! ### C10: target selection of broadcast_to_admins -/

/-- C10 counterexample: a message that carries a `conversation_id` — the empty
string — is not delivered to that conversation's subscription set (which is
empty) but broadcast globally: admin a1, subscribed to nothing, receives it,
because `if conversation_id:` in the source tests Python truthiness rather
than presence. -/
theorem c10_empty_convid_cex :
    emptyIdMsg.convId = some "" ∧ subsOf mixedMgr "" = []
      ∧ channelOf (broadcastToAdmins mixedMgr [] emptyIdMsg) "a1"
          = [emptyIdMsg] := by
  decide

/-- C10 amended: a message carrying a non-empty `conversation_id` targets
exactly that conversation's subscription set; a message carrying no
`conversation_id` — or an empty-string one, since the source tests Python
truthiness — targets every currently connected admin; in both cases admin `a`
receives the message exactly once iff it is targeted, connected, and its
transport does not fail. -/
theorem c10_broadcast_targeting (s : Mgr) (F : List String) (m : Msg)
    (a : String) (hnd : (targetsOf s m).Nodup) :
    channelOf (broadcastToAdmins s F m) a
        = channelOf s a
          ++ (if a ∈ targetsOf s m ∧ a ∈ s.connections ∧ a ∉ F then [m]
              else [])
      ∧ (∀ c, m.convId = some c → c ≠ "" → targetsOf s m = subsOf s c)
      ∧ ((m.convId = none ∨ m.convId = some "")
          → targetsOf s m = s.connections) := by
  refine ⟨?_, ?_, ?_⟩
  · rw [channelOf_broadcast s F m a hnd]
    congr 1
    by_cases h : a ∈ deliveredList s F m
    · rw [if_pos h, if_pos ((mem_deliveredList s F m a).mp h)]
    · rw [if_neg h, if_neg (fun hh => h ((mem_deliveredList s F m a).mpr hh))]
  · intro c hmc hc
    simp [targetsOf, hmc, hc]
  · intro h
    rcases h with h | h <;> simp [targetsOf, h]

/-- A final transcript broadcast on room-1. -/
def roomOneMsg : Msg :=
  { mtype := MsgType.finalTranscript, convId := some "room-1", seq := 3 }

/-- C10 witness: at the mixed state, a final transcript on room-1 reaches the
subscribed admin a2 and the target set is the room-1 subscription set. -/
theorem c10_broadcast_targeting_witness :
    (targetsOf mixedMgr roomOneMsg).Nodup
      ∧ (channelOf (broadcastToAdmins mixedMgr [] roomOneMsg) "a2"
          = channelOf mixedMgr "a2"
            ++ (if "a2" ∈ targetsOf mixedMgr roomOneMsg
                  ∧ "a2" ∈ mixedMgr.connections
                  ∧ "a2" ∉ ([] : List String) then [roomOneMsg] else [])
          ∧ (∀ c, roomOneMsg.convId = some c → c ≠ "" →
              targetsOf mixedMgr roomOneMsg = subsOf mixedMgr c)
          ∧ ((roomOneMsg.convId = none ∨ roomOneMsg.convId = some "")
              → targetsOf mixedMgr roomOneMsg = mixedMgr.connections)) :=
  ⟨by decide,
    c10_broadcast_targeting mixedMgr [] roomOneMsg "a2" (by decide)⟩

/-! ### C2: conversation end does not tear down subscriptions -/

/-- C2 counterexample: after the shutdown broadcast of the ConversationEnded
event for room-42, admin a1's subscription to room-42 is still registered, and
a subsequent broadcast on room-42 is still delivered to a1 — so subscriptions
are not torn down in the same logical step and deliveries continue after
termination. -/
theorem c2_no_teardown_cex :
    subsOf (broadcastShutdownEvent oneAdminMgr [] "room-42") "room-42"
        = ["a1"]
      ∧ channelOf (broadcastShutdownEvent oneAdminMgr [] "room-42") "a1"
          = [conversationEndedMsg "room-42"]
      ∧ channelOf
            (broadcastToAdmins (broadcastShutdownEvent oneAdminMgr [] "room-42")
              [] finalMsgB) "a1"
          = [conversationEndedMsg "room-42", finalMsgB] := by
  decide

/-- C2 amended: when a conversation ends, every still-subscribed connected
admin receives the ConversationEnded broadcast exactly once; but no matching
subscription is torn down — the subscription table is unchanged — and a
message broadcast on the same conversation afterwards is still delivered to
that admin. -/
theorem c2_end_without_teardown (s : Mgr) (c a : String) (m2 : Msg)
    (hsub : a ∈ subsOf s c) (hconn : a ∈ s.connections)
    (hn1 : (subsOf s c).Nodup) (hn2 : s.connections.Nodup)
    (hm2 : m2.convId = some c) :
    channelOf (broadcastShutdownEvent s [] c) a
        = channelOf s a ++ [conversationEndedMsg c]
      ∧ (broadcastShutdownEvent s [] c).subs = s.subs
      ∧ channelOf
            (broadcastToAdmins (broadcastShutdownEvent s [] c) [] m2) a
          = channelOf s a ++ [conversationEndedMsg c, m2] := by
  unfold broadcastShutdownEvent
  have h1 : channelOf (broadcastToAdmins s [] (conversationEndedMsg c)) a
      = channelOf s a ++ [conversationEndedMsg c] :=
    delivered_channel s [] (conversationEndedMsg c) c a rfl hsub hconn
      (by simp) hn1 hn2
  have hsubs : (broadcastToAdmins s [] (conversationEndedMsg c)).subs
      = s.subs := broadcast_noFail_subs s (conversationEndedMsg c)
  have hsub2 : a ∈ subsOf (broadcastToAdmins s [] (conversationEndedMsg c)) c := by
    rw [broadcast_noFail_subsOf]; exact hsub
  have hconn2 : a ∈ (broadcastToAdmins s [] (conversationEndedMsg c)).connections := by
    rw [broadcast_noFail_conn]; exact hconn
  have hn1b : (subsOf (broadcastToAdmins s [] (conversationEndedMsg c)) c).Nodup := by
    rw [broadcast_noFail_subsOf]; exact hn1
  have hn2b : (broadcastToAdmins s [] (conversationEndedMsg c)).connections.Nodup := by
    rw [broadcast_noFail_conn]; exact hn2
  have h2 := delivered_channel (broadcastToAdmins s [] (conversationEndedMsg c))
    [] m2 c a hm2 hsub2 hconn2 (by simp) hn1b hn2b
  refine ⟨h1, hsubs, ?_⟩
  rw [h2, h1, List.append_assoc]
  rfl

/-- C2 amended witness: concrete run at the one-admin state. -/
theorem c2_end_without_teardown_witness :
    ("a1" ∈ subsOf oneAdminMgr "room-42" ∧ "a1" ∈ oneAdminMgr.connections)
      ∧ (channelOf (broadcastShutdownEvent oneAdminMgr [] "room-42") "a1"
            = channelOf oneAdminMgr "a1" ++ [conversationEndedMsg "room-42"]
          ∧ (broadcastShutdownEvent oneAdminMgr [] "room-42").subs
              = oneAdminMgr.subs
          ∧ channelOf
                (broadcastToAdmins
                  (broadcastShutdownEvent oneAdminMgr [] "room-42") []
                  finalMsgB) "a1"
              = channelOf oneAdminMgr "a1"
                ++ [conversationEndedMsg "room-42", finalMsgB]) :=
  ⟨⟨by decide, by decide⟩,
    c2_end_without_teardown oneAdminMgr "room-42" "a1" finalMsgB (by decide)
      (by decide) (by decide) (by decide) rfl⟩

/-! ### C6: absence of a bounded per-subscriber buffer -/

/-- Repeatedly publish the interim transcript to the one-admin manager. -/
def pubRepeat (n : Nat) : Mgr :=
  publishSeq oneAdminMgr (List.replicate n (interimMsg, []))

lemma replicate_channel :
    ∀ (n : Nat) (s : Mgr),
      "a1" ∈ subsOf s "room-42" → "a1" ∈ s.connections →
      (subsOf s "room-42").Nodup → s.connections.Nodup →
      channelOf (publishSeq s (List.replicate n (interimMsg, []))) "a1"
        = channelOf s "a1" ++ List.replicate n interimMsg := by
  intro n
  induction n with
  | zero => intro s _ _ _ _; simp [publishSeq]
  | succ k ih =>
    intro s h1 h2 h3 h4
    have hstep := delivered_channel s [] interimMsg "room-42" "a1" rfl h1 h2
      (by simp) h3 h4
    have hps : publishSeq s (List.replicate (k + 1) (interimMsg, []))
        = publishSeq (broadcastToAdmins s [] interimMsg)
            (List.replicate k (interimMsg, [])) := rfl
    rw [hps,
      ih (broadcastToAdmins s [] interimMsg)
        (by rw [broadcast_noFail_subsOf]; exact h1)
        (by rw [broadcast_noFail_conn]; exact h2)
        (by rw [broadcast_noFail_subsOf]; exact h3)
        (by rw [broadcast_noFail_conn]; exact h4),
      hstep, List.append_assoc]
    rfl

/-- C6 counterexample: the delivery path maintains no bounded per-subscriber
buffer: for every candidate bound B, publishing B+1 interim transcripts to a
subscribed admin leaves a channel longer than B — nothing is ever dropped, so
no drop-oldest or InterimTranscript-priority policy exists either. -/
theorem c6_unbounded_channel_cex :
    ¬ ∃ B : Nat, ∀ n : Nat, (channelOf (pubRepeat n) "a1").length ≤ B := by
  intro h
  obtain ⟨B, hB⟩ := h
  have hlen : ∀ n, (channelOf (pubRepeat n) "a1").length = n := by
    intro n
    have hr := replicate_channel n oneAdminMgr (by decide) (by decide)
      (by decide) (by decide)
    have h0 : channelOf oneAdminMgr "a1" = [] := rfl
    rw [pubRepeat, hr, h0]
    simp
  have := hB (B + 1)
  rw [hlen] at this
  omega

/-- C6 amended: `broadcast_to_admins` performs a direct awaited send with no
per-subscriber buffer and no drop policy: every admin's channel only ever
grows (the previous channel is a prefix of the new one after any broadcast),
and every interim transcript published to a subscribed admin is retained, so
the channel length equals the number of publishes with no bound. -/
theorem c6_no_drop_policy (s : Mgr) (F : List String) (m : Msg) (a : String) :
    (∃ t, channelOf (broadcastToAdmins s F m) a = channelOf s a ++ t)
      ∧ ∀ n : Nat,
          channelOf (pubRepeat n) "a1" = List.replicate n interimMsg := by
  refine ⟨channel_extend s F m a, ?_⟩
  intro n
  have hr := replicate_channel n oneAdminMgr (by decide) (by decide)
    (by decide) (by decide)
  have h0 : channelOf oneAdminMgr "a1" = [] := rfl
  rw [pubRepeat, hr, h0]
  simp

end LMon
